import Mathlib

/-!
Verification of the SlypStream upload service (uploadSlip.ts and the webhook
relay function embedded in README.md) against its natural-language
specification.  Strings are modelled as `List Char`; JavaScript `Date.now()`
instants and byte counts are modelled as `Nat`; the HTTP environment (responses
received on each attempt, cookies observed, URL parsing) is passed in as
explicit data so that every function below is a pure translation of the
corresponding source function.
-/

namespace SlypStream

/-- Character class of the JavaScript regex `\s` restricted to ASCII: space,
tab, line feed, vertical tab, form feed, carriage return.  Used by both
`String.prototype.trim` and the `/\s+/g` replacement in `normalize`. -/
def isSpaceB (c : Char) : Bool :=
  c = ' ' || c = '\t' || c = '\n' || c = '\x0b' || c = '\x0c' || c = '\r'

/-- Character class `[a-z0-9-]`, the complement of the stripping regex
`/[^a-z0-9\-]/g` in `normalize`. -/
def isAllowedB (c : Char) : Bool :=
  ('a' ≤ c && c ≤ 'z') || ('0' ≤ c && c ≤ '9') || c = '-'

/-- ASCII model of `String.prototype.toLowerCase`: map `A`-`Z` to `a`-`z`,
leave every other character unchanged. -/
def toLowerChar (c : Char) : Char :=
  if 'A' ≤ c && c ≤ 'Z' then Char.ofNat (c.toNat + 32) else c

/-- JavaScript `trim()`: drop leading and trailing whitespace. -/
def jsTrim (s : List Char) : List Char :=
  ((s.dropWhile isSpaceB).reverse.dropWhile isSpaceB).reverse

/-- Helper for the `.replace(/\s+/g, '-')` step: the flag records whether the
scan is currently inside a whitespace run (whose first character already
emitted the dash). -/
def collapseWsAux : Bool → List Char → List Char
  | _, [] => []
  | inRun, c :: rest =>
    if isSpaceB c then
      if inRun then collapseWsAux true rest else '-' :: collapseWsAux true rest
    else c :: collapseWsAux false rest

/-- The `.replace(/\s+/g, '-')` step of `normalize`: every maximal run of
whitespace characters becomes a single dash. -/
def collapseWs (s : List Char) : List Char :=
  collapseWsAux false s

/-- Source line 14:
`str.trim().toLowerCase().replace(/\s+/g, '-').replace(/[^a-z0-9\-]/g, '')`. -/
def normalize (str : List Char) : List Char :=
  (collapseWs ((jsTrim str).map toLowerChar)).filter isAllowedB

/-- Whether `s` ends with `suf` (JavaScript `endsWith`, and the anchored
regexes `/\.jpg$/`). -/
def endsWithL (suf s : List Char) : Bool :=
  suf.reverse.isPrefixOf s.reverse

/-- Whether `pat` occurs as a contiguous substring of `s` (JavaScript
`String.prototype.includes`). -/
def containsSub (pat : List Char) : List Char → Bool
  | [] => pat.isEmpty
  | c :: rest => pat.isPrefixOf (c :: rest) || containsSub pat rest

/-- The date regex `/^\d{4}-\d{2}-\d{2}$/` of `validateUploadData` and
`validatePayload`: four digits, dash, two digits, dash, two digits — digit
shapes only, no range check on month or day. -/
def matchesDatePattern : List Char → Bool
  | [a, b, c, d, '-', e, f, '-', g, h] => [a, b, c, d, e, f, g, h].all Char.isDigit
  | _ => false

/-- Character class `[a-zA-Z0-9\-_]` of the filename regex. -/
def isWordChar (c : Char) : Bool :=
  c.isAlphanum || c = '_' || c = '-'

/-- The extension alternatives `(jpg|jpeg|png|gif|webp)` matched
case-insensitively (the regex carries the `i` flag). -/
def extOK (ext : List Char) : Bool :=
  [['j', 'p', 'g'], ['j', 'p', 'e', 'g'], ['p', 'n', 'g'],
    ['g', 'i', 'f'], ['w', 'e', 'b', 'p']].contains (ext.map toLowerChar)

/-- Matcher for the part of `/^[a-zA-Z0-9\-_]+\.(jpg|jpeg|png|gif|webp)$/i`
after its first character: zero or more word characters, then a literal dot,
then a whitelisted extension.  The stem class contains no dot, so matching is
deterministic: the stem ends at the first dot. -/
def matchTail : List Char → Bool
  | [] => false
  | c :: rest => if c = '.' then extOK rest else isWordChar c && matchTail rest

/-- The full filename regex `/^[a-zA-Z0-9\-_]+\.(jpg|jpeg|png|gif|webp)$/i`
(`validFilenamePattern` in `validateUploadData`, and the identical regex in
`validatePayload`). -/
def matchesFilenamePattern : List Char → Bool
  | [] => false
  | c :: rest => isWordChar c && matchTail rest

/-- The characters of the literal `".jpg"`. -/
def dotJpg : List Char := ['.', 'j', 'p', 'g']

/-- The `.replace(/\.[^/.]+$/, '')` step of `generateFinalFilename`: remove a
trailing dot-extension whose extension part is nonempty and free of dots and
slashes; otherwise leave the string unchanged. -/
def stripExt (s : List Char) : List Char :=
  let r := s.reverse
  let b := r.takeWhile fun c => !(c = '.') && !(c = '/')
  match r.drop b.length with
  | '.' :: restRev => if b.isEmpty then s else restRev.reverse
  | _ => s

/-- Source lines 106-116.  The random `crypto.randomUUID().slice(0, 8)` value
is passed in as the `suffix` argument.  Note the coercion check lowercases the
name but the suffix-inserting replacement regex `/\.jpg$/` is case
sensitive. -/
def generateFinalFilename (suffix originalFilename : List Char) : List Char :=
  let f1 :=
    if endsWithL dotJpg (originalFilename.map toLowerChar) then originalFilename
    else stripExt originalFilename ++ dotJpg
  if endsWithL dotJpg f1 then f1.take (f1.length - 4) ++ '_' :: (suffix ++ dotJpg)
  else f1

/-- Source line 367: `${normalizedBranch}/${uploadData.date}/${finalFilename}`. -/
def storagePathOf (branch date finalFilename : List Char) : List Char :=
  normalize branch ++ '/' :: (date ++ '/' :: finalFilename)

/-! Validators.  Payload fields are modelled as `Option (List Char)`; the
JavaScript truthiness test `!field` fails both for an absent field and for an
empty string. -/

/-- JavaScript truthiness of an optional string field. -/
def jsTruthy : Option (List Char) → Bool
  | none => false
  | some s => !s.isEmpty

/-- JavaScript `a || b` for an optional string against a string default:
the default is used when the field is absent or empty. -/
def jsOr (o : Option (List Char)) (dflt : List Char) : List Char :=
  match o with
  | none => dflt
  | some s => if s.isEmpty then dflt else s

/-- The upload payload fields read by `validateUploadData` and
`processImageUpload`. -/
structure UploadData where
  branch : Option (List Char)
  date : Option (List Char)
  filename : Option (List Char)
  imageUrl : Option (List Char)
deriving DecidableEq

def branchRequiredMsg : List Char := ("branch is required").toList

def dateRequiredMsg : List Char := ("date is required").toList

def filenameRequiredMsg : List Char := ("filename is required").toList

def dateFormatMsg : List Char := ("Date must be in YYYY-MM-DD format").toList

def filenameFormatMsg : List Char :=
  ("Filename format invalid. Only alphanumeric characters, dashes, and underscores allowed with valid image extensions (jpg, jpeg, png, gif, webp).").toList

/-- Source lines 82-98: collect every violation, in source order. -/
def validateUploadData (uploadData : UploadData) : List (List Char) :=
  (if jsTruthy uploadData.branch then [] else [branchRequiredMsg]) ++
  (if jsTruthy uploadData.date then [] else [dateRequiredMsg]) ++
  (if jsTruthy uploadData.filename then [] else [filenameRequiredMsg]) ++
  (if jsTruthy uploadData.date &&
      !matchesDatePattern (uploadData.date.getD []) then [dateFormatMsg] else []) ++
  (if jsTruthy uploadData.filename &&
      !matchesFilenamePattern (uploadData.filename.getD []) then [filenameFormatMsg] else [])

/-! The webhook-trigger payload validator (`validatePayload` in the relay
function listed in README.md). -/

/-- Hex digit class `[0-9a-f]` under the case-insensitive flag. -/
def isHexDigit (c : Char) : Bool :=
  c.isDigit || ('a' ≤ c && c ≤ 'f') || ('A' ≤ c && c ≤ 'F')

/-- Consume exactly `n` hex digits, returning the rest of the input. -/
def hexRun : Nat → List Char → Option (List Char)
  | 0, s => some s
  | _ + 1, [] => none
  | n + 1, c :: s => if isHexDigit c then hexRun n s else none

/-- Consume one expected character. -/
def expectChar (c : Char) : List Char → Option (List Char)
  | [] => none
  | d :: s => if d = c then some s else none

/-- The UUID regex
`/^[0-9a-f]{8}-[0-9a-f]{4}-[0-9a-f]{4}-[0-9a-f]{4}-[0-9a-f]{12}$/i` of
`validatePayload`: any 8-4-4-4-12 hex shape, with no constraint on the
version or variant nibbles. -/
def matchesUuidPattern (s : List Char) : Bool :=
  (do
    let s ← hexRun 8 s
    let s ← expectChar '-' s
    let s ← hexRun 4 s
    let s ← expectChar '-' s
    let s ← hexRun 4 s
    let s ← expectChar '-' s
    let s ← hexRun 4 s
    let s ← expectChar '-' s
    let s ← hexRun 12 s
    if s.isEmpty then some () else none).isSome

/-- Modelled from the spec: a UUID in version-4 format, i.e. the 8-4-4-4-12
hex shape whose version nibble (position 14) is `4` and whose variant nibble
(position 19) is one of `8`, `9`, `a`, `b` (case-insensitive).  This is the
spec-side predicate used to compare the spec sentence "metadataId (UUID v4
format)" with the code, which checks only the generic shape. -/
def uuidV4Shaped (s : List Char) : Bool :=
  matchesUuidPattern s && s.getD 14 ' ' = '4' &&
    (let v := s.getD 19 ' '
     v = '8' || v = '9' || v = 'a' || v = 'b' || v = 'A' || v = 'B')

/-- The webhook-trigger payload fields read by `validatePayload`. -/
structure WebhookPayload where
  public_url : Option (List Char)
  filename : Option (List Char)
  branch : Option (List Char)
  date : Option (List Char)
  metadataId : Option (List Char)
deriving DecidableEq

def missingFieldMsg (field : List Char) : List Char :=
  ("Missing required field: ").toList ++ field

def notSupabaseUrlMsg : List Char :=
  ("public_url must be a valid Supabase storage URL").toList

def notUrlMsg : List Char := ("public_url must be a valid URL").toList

def dateFormatMsg2 : List Char := ("date must be in YYYY-MM-DD format").toList

def filenameFormatMsg2 : List Char :=
  ("filename must be alphanumeric with valid image extension").toList

def uuidMsg : List Char := ("metadataId must be a valid UUID").toList

/-- README.md `validatePayload`.  The payload is modelled as an object (the
early non-object return is outside the shape of the model); `new URL(...)`
parse success is supplied by the external `urlParses` oracle, since URL
parsing belongs to the host platform. -/
def validatePayload (urlParses : List Char → Bool) (p : WebhookPayload) :
    List (List Char) :=
  (if jsTruthy p.public_url then [] else [missingFieldMsg (("public_url").toList)]) ++
  (if jsTruthy p.filename then [] else [missingFieldMsg (("filename").toList)]) ++
  (if jsTruthy p.branch then [] else [missingFieldMsg (("branch").toList)]) ++
  (if jsTruthy p.date then [] else [missingFieldMsg (("date").toList)]) ++
  (if jsTruthy p.metadataId then [] else [missingFieldMsg (("metadataId").toList)]) ++
  (if jsTruthy p.public_url then
    (if urlParses (p.public_url.getD []) then
      (if !containsSub (("supabase.co").toList) (p.public_url.getD []) &&
          !containsSub (("storage").toList) (p.public_url.getD []) then
        [notSupabaseUrlMsg]
      else [])
    else [notUrlMsg])
  else []) ++
  (if jsTruthy p.date && !matchesDatePattern (p.date.getD []) then [dateFormatMsg2] else []) ++
  (if jsTruthy p.filename &&
      !matchesFilenamePattern (p.filename.getD []) then [filenameFormatMsg2] else []) ++
  (if jsTruthy p.metadataId &&
      !matchesUuidPattern (p.metadataId.getD []) then [uuidMsg] else [])

/-! Rate limiter (source lines 9-80).  The `rateLimitStore` JavaScript `Map`
is modelled as an insertion-ordered association list; `Date.now()` instants
are `Nat` milliseconds.  JavaScript subtractions such as
`now - timestamp < RATE_LIMIT_WINDOW` agree with truncated `Nat` subtraction
on every comparison performed here (a negative difference and a truncated-to-
zero difference fall on the same side of each threshold). -/

def RATE_LIMIT_WINDOW : Nat := 60000

def RATE_LIMIT_MAX_REQUESTS : Nat := 30

/-- The per-client record `{ requests, lastCleanup }`. -/
structure ClientData where
  requests : List Nat
  lastCleanup : Nat
deriving DecidableEq

/-- The rate-limit store: key-value pairs in insertion order, keys unique. -/
abbrev RLStore := List (String × ClientData)

/-- JavaScript `Map.prototype.get`. -/
def storeGet : RLStore → String → Option ClientData
  | [], _ => none
  | (k, v) :: rest, ip => if k = ip then some v else storeGet rest ip

/-- JavaScript `Map.prototype.set`: replace in place, or append a new key. -/
def storeSet : RLStore → String → ClientData → RLStore
  | [], ip, v => [(ip, v)]
  | (k, w) :: rest, ip, v =>
    if k = ip then (k, v) :: rest else (k, w) :: storeSet rest ip v

/-- After the sweep, the source mutates `clientData.lastCleanup = now`; the
mutation is visible in the map only if the entry survived the sweep. -/
def touchLastCleanup : RLStore → String → Nat → RLStore
  | [], _, _ => []
  | (k, v) :: rest, ip, now =>
    if k = ip then (k, { v with lastCleanup := now }) :: rest
    else (k, v) :: touchLastCleanup rest ip now

/-- Result of `checkRateLimit`: `{allowed: true}` or
`{allowed: false, resetTime}`. -/
inductive RLResult where
  | allowed
  | denied (resetTime : Nat)
deriving DecidableEq

/-- Source lines 52-80.  Returns the result together with the store as left
by the call (the source mutates the module-level `rateLimitStore`). -/
def checkRateLimit (now : Nat) (clientIP : String) (store : RLStore) :
    RLResult × RLStore :=
  let clientData := (storeGet store clientIP).getD ⟨[], now⟩
  let pruned := clientData.requests.filter fun t => now - t < RATE_LIMIT_WINDOW
  if RATE_LIMIT_MAX_REQUESTS ≤ pruned.length then
    -- the filter assignment on line 59 already mutated the stored record
    ( RLResult.denied (pruned.headD 0 + RATE_LIMIT_WINDOW),
      match storeGet store clientIP with
      | some _ => storeSet store clientIP ⟨pruned, clientData.lastCleanup⟩
      | none => store )
  else
    let cd2 : ClientData := ⟨pruned ++ [now], clientData.lastCleanup⟩
    let store1 := storeSet store clientIP cd2
    let store2 :=
      if RATE_LIMIT_WINDOW < now - cd2.lastCleanup then
        touchLastCleanup
          (store1.filter fun e => !(2 * RATE_LIMIT_WINDOW < now - e.2.lastCleanup))
          clientIP now
      else store1
    (RLResult.allowed, store2)

/-! Session fetcher (`fetchImageWithSessionHandling`, source lines 134-311).
Each loop iteration performs a fixed navigation sequence (origin visit, probe,
optional verification hop, final fetch); the network environment for attempt
number `i` is supplied as an `AttemptTrace`.  The cookies observed along the
way feed only the outgoing request headers, never the classification of the
final response, so they appear in the trace but not in the control flow. -/

/-- The final response of one attempt (`finalResponse`, line 252): `ok` is
`response.ok` (2xx), `contentType` the `Content-Type` header if present,
`body` the text body, `data` the raw bytes. -/
structure FinalResp where
  ok : Bool
  status : Nat
  contentType : Option (List Char)
  body : List Char
  data : List Nat
deriving DecidableEq

/-- Everything the network hands one loop iteration: the `Set-Cookie` values
captured in steps 1-3 and the final response, or a thrown transport error. -/
structure AttemptTrace where
  domainCookies : List (List Char)
  initialCookies : List (List Char)
  verificationCookies : List (List Char)
  thrown : Option (List Char)
  final : FinalResp
deriving DecidableEq

/-- The deduplicated cookie jar `[...new Set(allCookies)]` replayed on the
final request of an attempt (merge order: session, probe, verification). -/
def allCookiesOf (t : AttemptTrace) : List (List Char) :=
  (t.domainCookies ++ t.initialCookies ++ t.verificationCookies).dedup

/-- The `contentType?.startsWith('image/')` test (an absent header fails
it, as `undefined?.startsWith` is undefined and hence falsy). -/
def ctStartsImage : Option (List Char) → Bool
  | none => false
  | some ct => (['i', 'm', 'a', 'g', 'e', '/']).isPrefixOf ct

/-- The challenge-page heuristic on the body text (line 261). -/
def bodyLooksHtml (body : List Char) : Bool :=
  containsSub (("<!DOCTYPE html").toList) body || containsSub (("<html").toList) body

/-- Line 275: the declared content type when it is image-flavoured, otherwise
the `application/octet-stream` fallback. -/
def finalContentTypeOf (ct : Option (List Char)) : List Char :=
  match ct with
  | some c => if (['i', 'm', 'a', 'g', 'e', '/']).isPrefixOf c then c
              else ("application/octet-stream").toList
  | none => ("application/octet-stream").toList

/-- The error component of a fetch failure result. -/
inductive FetchError where
  | botProtection
  | httpStatus (status : Nat)
  | network (message : List Char)
deriving DecidableEq

/-- `fetchImageWithSessionHandling` resolves to `{success: true, data,
contentType}` or `{success: false, error, details, ...}`. -/
inductive FetchResult where
  | success (data : List Nat) (contentType : List Char)
  | failure (error : FetchError) (details : Option (List Char))
deriving DecidableEq

/-- One iteration of the retry loop: `none` means `continue` (retry), `some`
means the function returned. -/
def fetchStep (t : AttemptTrace) (isLast : Bool) : Option FetchResult :=
  match t.thrown with
  | some e => if isLast then some (.failure (.network e) (some e)) else none
  | none =>
    if t.final.ok then
      if !ctStartsImage t.final.contentType then
        if bodyLooksHtml t.final.body then
          if isLast then some (.failure .botProtection (some (t.final.body.take 300)))
          else none
        else some (.success t.final.data (finalContentTypeOf t.final.contentType))
      else some (.success t.final.data (finalContentTypeOf t.final.contentType))
    else
      if isLast then
        some (.failure (.httpStatus t.final.status) (some (t.final.body.take 300)))
      else none

/-- The `for (let attempt = 1; attempt <= maxRetries; attempt++)` loop,
returning the result together with the attempt number on which the function
returned.  `none` models falling out of the loop (unreachable for
`maxRetries ≥ 1`). -/
def fetchLoop (tr : Nat → AttemptTrace) (maxRetries : Nat) (attempt : Nat) :
    Option (FetchResult × Nat) :=
  if _h : maxRetries < attempt then none
  else
    match fetchStep (tr attempt) (attempt = maxRetries) with
    | some r => some (r, attempt)
    | none => fetchLoop tr maxRetries (attempt + 1)
termination_by maxRetries + 1 - attempt
decreasing_by omega

/-- Source lines 134-311 with `maxRetries = 3` at the call site. -/
def fetchImageWithSessionHandling (tr : Nat → AttemptTrace) (maxRetries : Nat) :
    Option (FetchResult × Nat) :=
  fetchLoop tr maxRetries 1

/-! Upload coordinator (`processImageUpload`, source lines 313-399).  The
object store is an external collaborator: the model returns either an early
rejection or the storage-write request the function issues, so "before any
storage write" is visible as the constructor of the result. -/

/-- A direct-upload file: its bytes and its declared MIME type
(`imageFile.type`, possibly absent or empty). -/
structure ImageFile where
  data : List Nat
  type : Option (List Char)
deriving DecidableEq

/-- The distinct rejection sites of `processImageUpload`. -/
inductive UploadReject where
  | botProtectionDetected
  | fetchFailed (error : FetchError) (details : Option (List Char))
  | missingSource
  | imageTooLarge
deriving DecidableEq

/-- Outcome of the coordinator up to its first store interaction. -/
inductive ProcResult where
  | reject (error : UploadReject)
  | storeWrite (path : List Char) (data : List Nat) (contentType : List Char)
      (uploadMode : List Char)
deriving DecidableEq

def defaultMaxImageSize : Nat := 10 * 1024 * 1024

/-- Source lines 99-104: an error exactly when the byte length exceeds
`maxSizeBytes`.  There is no emptiness check. -/
def validateImageSize (len maxSizeBytes : Nat) : Option UploadReject :=
  if maxSizeBytes < len then some .imageTooLarge else none

/-- The common continuation of `processImageUpload` after the image bytes are
acquired: size validation, then filename, storage path and the storage
upload call. -/
def processContinue (uploadData : UploadData) (suffix : List Char)
    (imageData : List Nat) (contentTypeHeader uploadMode : List Char) : ProcResult :=
  match validateImageSize imageData.length defaultMaxImageSize with
  | some e => .reject e
  | none =>
    let finalFilename := generateFinalFilename suffix (uploadData.filename.getD [])
    .storeWrite (storagePathOf (uploadData.branch.getD []) (uploadData.date.getD [])
        finalFilename)
      imageData contentTypeHeader uploadMode

/-- Source lines 313-375, to the storage write.  `fetchResult` is the resolved
value of `fetchImageWithSessionHandling(uploadData.imageUrl)` (URL mode only);
`suffix` is the random suffix drawn inside `generateFinalFilename`. -/
def processImageUpload (uploadData : UploadData) (imageFile : Option ImageFile)
    (fetchResult : FetchResult) (suffix : List Char) : ProcResult :=
  match imageFile with
  | some f =>
    processContinue uploadData suffix f.data
      (jsOr f.type (("application/octet-stream").toList)) (("direct-upload").toList)
  | none =>
    match uploadData.imageUrl with
    | some _ =>
      match fetchResult with
      | .failure error details =>
        if (match details with
            | some d => bodyLooksHtml d
            | none => false) then
          .reject .botProtectionDetected
        else .reject (.fetchFailed error details)
      | .success data contentType =>
        processContinue uploadData suffix data contentType (("url-upload").toList)
    | none => .reject .missingSource

/-! Downstream relay retry loop (`sendToBuildShip` in README.md, with
`CONFIG.MAX_RETRIES` as the attempt ceiling).  Each iteration performs one
`fetch` of the BuildShip endpoint; the outcome of attempt number `i` is
supplied by the environment function. -/

/-- What one BuildShip fetch attempt produced: a response (with its status
and body text), an abort/timeout, or another thrown transport error. -/
inductive BSAttempt where
  | resp (status : Nat) (text : List Char)
  | abortError
  | otherError (message : List Char)
deriving DecidableEq

/-- `Response.ok`: status in the 2xx range. -/
def respOk (status : Nat) : Bool := 200 ≤ status && status < 300

/-- The error component of a failed `sendToBuildShip` result, one constructor
per return site. -/
inductive BSError where
  | clientError (status : Nat)
  | httpError (status : Nat)
  | timeout
  | requestFailed (message : List Char)
  | allAttemptsFailed
deriving DecidableEq

/-- The resolved value of `sendToBuildShip`: success or failure, always
carrying the attempt count at the return site. -/
inductive BSResult where
  | success (status : Nat) (response : List Char) (attempts : Nat)
  | failure (error : BSError) (attempts : Nat)
deriving DecidableEq

/-- One iteration of the `sendToBuildShip` retry loop; `none` means the
iteration fell through to the next attempt. -/
def sendStep (a : BSAttempt) (attempt maxRetries : Nat) : Option BSResult :=
  match a with
  | .resp status text =>
    if respOk status then some (.success status text attempt)
    else if 400 ≤ status && status < 500 && !(status = 429) then
      some (.failure (.clientError status) attempt)
    else if attempt < maxRetries then none
    else some (.failure (.httpError status) attempt)
  | .abortError =>
    if attempt < maxRetries then none else some (.failure .timeout attempt)
  | .otherError m =>
    if attempt = maxRetries then some (.failure (.requestFailed m) attempt) else none

/-- The `for (let attempt = 1; attempt <= CONFIG.MAX_RETRIES; attempt++)`
loop. -/
def sendLoop (env : Nat → BSAttempt) (maxRetries : Nat) (attempt : Nat) :
    Option BSResult :=
  if _h : maxRetries < attempt then none
  else
    match sendStep (env attempt) attempt maxRetries with
    | some r => some r
    | none => sendLoop env maxRetries (attempt + 1)
termination_by maxRetries + 1 - attempt
decreasing_by omega

/-- README.md `sendToBuildShip`: run the loop from attempt 1; the trailing
`return { error: 'All BuildShip attempts failed', attempts: MAX_RETRIES }` is
the fall-through value. -/
def sendToBuildShip (env : Nat → BSAttempt) (maxRetries : Nat) : BSResult :=
  (sendLoop env maxRetries 1).getD (.failure .allAttemptsFailed maxRetries)

/-! Predicates used by the claim statements. -/

/-- An attempt whose final response is a 2xx non-image response with an
HTML-looking body: the challenge-page situation of the session fetcher. -/
def htmlChallenge (t : AttemptTrace) : Prop :=
  t.thrown = none ∧ t.final.ok = true ∧
    ctStartsImage t.final.contentType = false ∧ bodyLooksHtml t.final.body = true

/-- A BuildShip attempt outcome that the spec classifies transient:
HTTP 429, any 5xx, or a transport-level abort/timeout/error. -/
def transientAttempt : BSAttempt → Prop
  | .resp status _ => status = 429 ∨ 500 ≤ status
  | .abortError => True
  | .otherError _ => True

/-- The error that `sendToBuildShip` reports when the last attempt had this
outcome and retries are exhausted. -/
def exhaustErrOf : BSAttempt → BSError
  | .resp status _ => .httpError status
  | .abortError => .timeout
  | .otherError m => .requestFailed m

/-- Keys of the rate-limit store are pairwise distinct (a JavaScript `Map`
invariant). -/
def keysNodup (s : RLStore) : Prop := (s.map Prod.fst).Nodup

end SlypStream

namespace SlypStream

/-! Character-level helper lemmas. -/

theorem char_eq_iff_toNat {a b : Char} : a = b ↔ a.toNat = b.toNat :=
  ⟨congrArg _, fun h => by
    have h2 := congrArg Char.ofNat h
    rwa [Char.ofNat_toNat, Char.ofNat_toNat] at h2⟩

theorem char_le_iff_toNat {a b : Char} : a ≤ b ↔ a.toNat ≤ b.toNat := by
  simp [Char.le_def, UInt32.le_def, BitVec.le_def, UInt32.toNat, Char.toNat]

theorem toNat_ofNat_small {n : Nat} (h : n < 55296) : (Char.ofNat n).toNat = n := by
  rw [Char.ofNat, dif_pos (by constructor; exact Nat.lt_of_lt_of_le h (by norm_num))]
  simp [Char.ofNatAux, Char.toNat, UInt32.toNat, UInt32.ofNat', BitVec.toNat_ofNatLt]

theorem isAllowedB_iff {c : Char} :
    isAllowedB c = true ↔
      (97 ≤ c.toNat ∧ c.toNat ≤ 122) ∨ (48 ≤ c.toNat ∧ c.toNat ≤ 57) ∨ c.toNat = 45 := by
  simp [isAllowedB, char_le_iff_toNat, char_eq_iff_toNat,
    show ('a').toNat = 97 from rfl, show ('z').toNat = 122 from rfl,
    show ('0').toNat = 48 from rfl, show ('9').toNat = 57 from rfl,
    show ('-').toNat = 45 from rfl]
  tauto

theorem isSpaceB_iff {c : Char} :
    isSpaceB c = true ↔
      c.toNat = 32 ∨ c.toNat = 9 ∨ c.toNat = 10 ∨ c.toNat = 11 ∨
        c.toNat = 12 ∨ c.toNat = 13 := by
  simp [isSpaceB, char_eq_iff_toNat,
    show (' ').toNat = 32 from rfl, show ('\t').toNat = 9 from rfl,
    show ('\n').toNat = 10 from rfl, show ('\x0b').toNat = 11 from rfl,
    show ('\x0c').toNat = 12 from rfl, show ('\r').toNat = 13 from rfl]
  tauto

theorem toLowerChar_of_not_upper {c : Char} (h : c.toNat < 65 ∨ 90 < c.toNat) :
    toLowerChar c = c := by
  rw [toLowerChar, if_neg]
  simp only [Bool.and_eq_true, decide_eq_true_eq, char_le_iff_toNat,
    show ('A').toNat = 65 from rfl, show ('Z').toNat = 90 from rfl]
  omega

theorem toNat_toLowerChar_of_upper {c : Char} (h1 : 65 ≤ c.toNat) (h2 : c.toNat ≤ 90) :
    (toLowerChar c).toNat = c.toNat + 32 := by
  rw [toLowerChar, if_pos]
  · exact toNat_ofNat_small (by omega)
  · simp only [Bool.and_eq_true, decide_eq_true_eq, char_le_iff_toNat,
      show ('A').toNat = 65 from rfl, show ('Z').toNat = 90 from rfl]
    omega

theorem toLowerChar_of_isAllowed {c : Char} (h : isAllowedB c = true) :
    toLowerChar c = c := by
  have h' := isAllowedB_iff.mp h
  exact toLowerChar_of_not_upper (by omega)

theorem isSpaceB_eq_false_of_isAllowed {c : Char} (h : isAllowedB c = true) :
    isSpaceB c = false := by
  have h' := isAllowedB_iff.mp h
  rw [Bool.eq_false_iff]
  intro hs
  have hx := isSpaceB_iff.mp hs
  omega

theorem isSpaceB_toLowerChar_eq_false {c : Char} (h : isSpaceB c = false) :
    isSpaceB (toLowerChar c) = false := by
  rcases Nat.lt_or_ge c.toNat 65 with h1 | h1
  · rwa [toLowerChar_of_not_upper (Or.inl h1)]
  rcases Nat.lt_or_ge 90 c.toNat with h2 | h2
  · rwa [toLowerChar_of_not_upper (Or.inr h2)]
  rw [Bool.eq_false_iff]
  intro hs
  have hx := isSpaceB_iff.mp hs
  rw [toNat_toLowerChar_of_upper h1 h2] at hx
  omega

/-! List-level helper lemmas for `normalize`. -/

theorem all_not_space_of_all_allowed {l : List Char} (h : l.all isAllowedB = true) :
    l.all (fun c => !isSpaceB c) = true := by
  rw [List.all_eq_true] at h ⊢
  intro c hc
  rw [Bool.not_eq_true', isSpaceB_eq_false_of_isAllowed (h c hc)]

theorem dropWhile_eq_self_of_all {p : Char → Bool} {l : List Char}
    (h : l.all (fun c => !p c) = true) : l.dropWhile p = l := by
  cases l with
  | nil => rfl
  | cons c cs =>
    rw [List.all_cons, Bool.and_eq_true] at h
    rw [List.dropWhile_cons, if_neg]
    rw [Bool.not_eq_true'] at h
    simp [h.1]

theorem jsTrim_eq_self {l : List Char} (h : l.all (fun c => !isSpaceB c) = true) :
    jsTrim l = l := by
  unfold jsTrim
  rw [dropWhile_eq_self_of_all h,
    dropWhile_eq_self_of_all (by rwa [List.all_reverse]), List.reverse_reverse]

theorem map_toLowerChar_eq_self {l : List Char} (h : l.all isAllowedB = true) :
    l.map toLowerChar = l := by
  induction l with
  | nil => rfl
  | cons c cs ih =>
    rw [List.all_cons, Bool.and_eq_true] at h
    rw [List.map_cons, toLowerChar_of_isAllowed h.1, ih h.2]

theorem collapseWsAux_eq_self {l : List Char} (h : l.all (fun c => !isSpaceB c) = true) :
    ∀ inRun, collapseWsAux inRun l = l := by
  induction l with
  | nil => intro inRun; rfl
  | cons c cs ih =>
    intro inRun
    rw [List.all_cons, Bool.and_eq_true] at h
    have hc : isSpaceB c = false := by
      have := h.1
      rwa [Bool.not_eq_true'] at this
    rw [collapseWsAux, if_neg (by simp [hc]), ih h.2]

theorem collapseWs_eq_self {l : List Char} (h : l.all (fun c => !isSpaceB c) = true) :
    collapseWs l = l :=
  collapseWsAux_eq_self h false

theorem normalize_all_allowed (s : List Char) : (normalize s).all isAllowedB = true := by
  rw [List.all_eq_true]
  intro c hc
  exact (List.mem_filter.mp hc).2

/-- Claim C9: `normalize` is idempotent — for every string `s`,
`normalize (normalize s) = normalize s` — and for every string `s`,
`normalize s` matches `^[a-z0-9-]*$` (every character is in `[a-z0-9-]`). -/
theorem normalize_idempotent_and_charset (s : List Char) :
    normalize (normalize s) = normalize s ∧ (normalize s).all isAllowedB = true := by
  have hall := normalize_all_allowed s
  refine ⟨?_, hall⟩
  have hns := all_not_space_of_all_allowed hall
  conv_lhs => rw [normalize]
  rw [jsTrim_eq_self hns, map_toLowerChar_eq_self hall, collapseWs_eq_self hns,
    List.filter_eq_self.mpr fun a ha => List.all_eq_true.mp hall a ha]

/-- Claim C5, counterexample: on the payload `{branch: "main",
date: "2024-13-40", filename: "a.txt"}` the validator does not return two
violations — the malformed date satisfies the digit-shape date regex, so no
date violation is produced and the violation list has fewer than two
entries. -/
theorem validateUploadData_c5_counterexample :
    ¬ 2 ≤ (validateUploadData ⟨some (("main").toList), some (("2024-13-40").toList),
        some (("a.txt").toList), none⟩).length ∧
    dateFormatMsg ∉ validateUploadData ⟨some (("main").toList), some (("2024-13-40").toList),
        some (("a.txt").toList), none⟩ := by
  decide

/-- Claim C5 (amended): the validator, applied to the payload
`{branch: "main", date: "2024-13-40", filename: "a.txt"}`, returns exactly one
violation, for the bad filename extension; the impossible date `2024-13-40`
passes the `YYYY-MM-DD` shape-only regex, which checks digit positions and not
month or day ranges.  The validator is a pure function over the payload, so no
network calls are made. -/
theorem validateUploadData_c5_amended :
    validateUploadData ⟨some (("main").toList), some (("2024-13-40").toList),
        some (("a.txt").toList), none⟩ = [filenameFormatMsg] ∧
    matchesDatePattern (("2024-13-40").toList) = true := by
  decide

/-! Session-fetcher lemmas. -/

theorem fetchStep_image_success {t : AttemptTrace} (isLast : Bool)
    (h0 : t.thrown = none) (h1 : t.final.ok = true)
    (h2 : ctStartsImage t.final.contentType = true) :
    fetchStep t isLast =
      some (FetchResult.success t.final.data (finalContentTypeOf t.final.contentType)) := by
  simp [fetchStep, h0, h1, h2]

theorem fetchStep_html_not_last {t : AttemptTrace} (h : htmlChallenge t) :
    fetchStep t false = none := by
  obtain ⟨h0, h1, h2, h3⟩ := h
  simp [fetchStep, h0, h1, h2, h3]

theorem fetchStep_html_last {t : AttemptTrace} (h : htmlChallenge t) :
    fetchStep t true =
      some (FetchResult.failure FetchError.botProtection (some (t.final.body.take 300))) := by
  obtain ⟨h0, h1, h2, h3⟩ := h
  simp [fetchStep, h0, h1, h2, h3]

/-- Claim C1: for the session fetcher with its call-site `maxRetries = 3`,
(1) when the final response of the first attempt is 2xx with an image-flavoured
`Content-Type`, the result is `Success` with that content type on attempt 1 —
for every trace, hence regardless of the cookies collected in it; and
(2) when every attempt ends in a 2xx non-image response whose body looks like
an HTML document, the result is the bot-protection failure, returned on
attempt 3 = `maxAttempts` and never earlier (attempts 1 and 2 fall through to
a retry). -/
theorem fetchSession_image_success_and_html_exhausts :
    (∀ tr : Nat → AttemptTrace,
        (tr 1).thrown = none → (tr 1).final.ok = true →
        ctStartsImage (tr 1).final.contentType = true →
        fetchImageWithSessionHandling tr 3 =
          some (FetchResult.success (tr 1).final.data
            (finalContentTypeOf (tr 1).final.contentType), 1)) ∧
    (∀ tr : Nat → AttemptTrace,
        (∀ i, 1 ≤ i → i ≤ 3 → htmlChallenge (tr i)) →
        fetchImageWithSessionHandling tr 3 =
          some (FetchResult.failure FetchError.botProtection
            (some ((tr 3).final.body.take 300)), 3)) := by
  constructor
  · intro tr h0 h1 h2
    rw [fetchImageWithSessionHandling, fetchLoop, dif_neg (by omega),
      fetchStep_image_success _ h0 h1 h2]
  · intro tr h
    have e1 : (decide (1 = 3)) = false := by decide
    have e2 : (decide (2 = 3)) = false := by decide
    have e3 : (decide (3 = 3)) = true := by decide
    rw [fetchImageWithSessionHandling, fetchLoop, dif_neg (by omega), e1,
      fetchStep_html_not_last (h 1 (by omega) (by omega)),
      fetchLoop, dif_neg (by omega), e2,
      fetchStep_html_not_last (h 2 (by omega) (by omega)),
      fetchLoop, dif_neg (by omega), e3,
      fetchStep_html_last (h 3 (by omega) (by omega))]

/-- Witness for claim C1 at concrete traces: an `image/png` 2xx response on
attempt 1 yields success at attempt 1, and an HTML challenge on every attempt
yields the bot-protection failure at attempt 3. -/
theorem fetchSession_image_success_and_html_exhausts_witness :
    fetchImageWithSessionHandling
        (fun _ => ⟨[], [], [], none, ⟨true, 200, some (("image/png").toList), [], [1, 2]⟩⟩) 3 =
      some (FetchResult.success [1, 2] (("image/png").toList), 1) ∧
    fetchImageWithSessionHandling
        (fun _ => ⟨[], [], [], none, ⟨true, 200, some (("text/html").toList),
          (("<html>x").toList), []⟩⟩) 3 =
      some (FetchResult.failure FetchError.botProtection (some (("<html>x").toList)), 3) := by
  constructor
  · have h := fetchSession_image_success_and_html_exhausts.1
      (fun _ => ⟨[], [], [], none, ⟨true, 200, some (("image/png").toList), [], [1, 2]⟩⟩)
      rfl rfl (by decide)
    exact h
  · have h := fetchSession_image_success_and_html_exhausts.2
      (fun _ => ⟨[], [], [], none, ⟨true, 200, some (("text/html").toList),
        (("<html>x").toList), []⟩⟩)
      (fun i _ _ => ⟨rfl, rfl,
        (by decide : ctStartsImage (some (("text/html").toList)) = false),
        (by decide : bodyLooksHtml (("<html>x").toList) = true)⟩)
    exact h

/-! BuildShip retry-loop lemmas. -/

theorem sendStep_transient_not_last {a : BSAttempt} (h : transientAttempt a)
    {att mr : Nat} (hlt : att < mr) : sendStep a att mr = none := by
  cases a with
  | resp status text =>
    have hro : respOk status = false := by
      simp only [respOk, Bool.and_eq_false_iff, decide_eq_false_iff_not]
      rcases h with h | h <;> omega
    have hcl : (400 ≤ status && status < 500 && !(status = 429)) = false := by
      simp only [Bool.and_eq_false_iff, Bool.not_eq_false', decide_eq_true_eq,
        decide_eq_false_iff_not]
      rcases h with h | h <;> omega
    rw [sendStep, if_neg (by simp [hro]), if_neg (by simp [hcl]), if_pos hlt]
  | abortError => rw [sendStep, if_pos hlt]
  | otherError m => rw [sendStep, if_neg (by omega)]

theorem sendStep_transient_last {a : BSAttempt} (h : transientAttempt a) (mr : Nat) :
    sendStep a mr mr = some (.failure (exhaustErrOf a) mr) := by
  cases a with
  | resp status text =>
    have hro : respOk status = false := by
      simp only [respOk, Bool.and_eq_false_iff, decide_eq_false_iff_not]
      rcases h with h | h <;> omega
    have hcl : (400 ≤ status && status < 500 && !(status = 429)) = false := by
      simp only [Bool.and_eq_false_iff, Bool.not_eq_false', decide_eq_true_eq,
        decide_eq_false_iff_not]
      rcases h with h | h <;> omega
    rw [sendStep, if_neg (by simp [hro]), if_neg (by simp [hcl]), if_neg (by omega)]
    rfl
  | abortError => rw [sendStep, if_neg (by omega)]; rfl
  | otherError m => rw [sendStep, if_pos rfl]; rfl

theorem sendLoop_transient {env : Nat → BSAttempt} {mr : Nat} :
    ∀ n a, 1 ≤ a → a ≤ mr → mr - a = n →
      (∀ i, a ≤ i → i ≤ mr → transientAttempt (env i)) →
      sendLoop env mr a = some (.failure (exhaustErrOf (env mr)) mr) := by
  intro n
  induction n with
  | zero =>
    intro a h1 h2 h3 h
    have ha : a = mr := by omega
    subst ha
    rw [sendLoop, dif_neg (by omega), sendStep_transient_last (h a le_rfl le_rfl)]
  | succ n ih =>
    intro a h1 h2 h3 h
    rw [sendLoop, dif_neg (by omega),
      sendStep_transient_not_last (h a le_rfl h2) (by omega)]
    exact ih (a + 1) (by omega) (by omega) (by omega) fun i hi1 hi2 => h i (by omega) hi2

/-- Claim C2: for the retry executor around `sendToBuildShip`,
(1) a first attempt answered with a terminal HTTP status (4xx other than 429)
produces the client-error failure with `attempts = 1`, and the result is the
same for any environment agreeing on attempt 1 — no second attempt is
consulted; and
(2) when every attempt up to `maxAttempts` is transient (HTTP 429, any 5xx, or
a transport abort/timeout/error), the result is the exhausted failure carrying
the error of the last attempt and `attempts = maxAttempts`. -/
theorem sendToBuildShip_terminal_and_transient :
    (∀ env env' : Nat → BSAttempt, ∀ maxRetries status text, 1 ≤ maxRetries →
        env 1 = .resp status text → 400 ≤ status → status < 500 → status ≠ 429 →
        env' 1 = env 1 →
        sendToBuildShip env maxRetries = .failure (.clientError status) 1 ∧
        sendToBuildShip env' maxRetries = .failure (.clientError status) 1) ∧
    (∀ env : Nat → BSAttempt, ∀ maxRetries, 1 ≤ maxRetries →
        (∀ i, 1 ≤ i → i ≤ maxRetries → transientAttempt (env i)) →
        sendToBuildShip env maxRetries =
          .failure (exhaustErrOf (env maxRetries)) maxRetries) := by
  constructor
  · intro env env' mr status text hmr he h4 h5 h9 he'
    have hstep : ∀ e : Nat → BSAttempt, e 1 = .resp status text →
        sendToBuildShip e mr = .failure (.clientError status) 1 := by
      intro e h1
      have hro : respOk status = false := by
        simp only [respOk, Bool.and_eq_false_iff, decide_eq_false_iff_not]
        omega
      have hcl : (400 ≤ status && status < 500 && !(status = 429)) = true := by
        simp only [Bool.and_eq_true, Bool.not_eq_true', decide_eq_true_eq,
          decide_eq_false_iff_not]
        exact ⟨⟨h4, h5⟩, h9⟩
      rw [sendToBuildShip, sendLoop, dif_neg (by omega), h1, sendStep,
        if_neg (by simp [hro]), if_pos hcl]
      rfl
    exact ⟨hstep env he, hstep env' (he'.trans he)⟩
  · intro env mr hmr h
    rw [sendToBuildShip, sendLoop_transient (mr - 1) 1 le_rfl hmr rfl h]
    rfl

/-- Witness for claim C2 at `maxRetries = 2`: a 404 on attempt 1 is terminal
with one attempt; a 503 on every attempt exhausts both attempts. -/
theorem sendToBuildShip_terminal_and_transient_witness :
    sendToBuildShip (fun _ => .resp 404 []) 2 = .failure (.clientError 404) 1 ∧
    sendToBuildShip (fun _ => .resp 503 []) 2 = .failure (.httpError 503) 2 := by
  constructor
  · exact (sendToBuildShip_terminal_and_transient.1 (fun _ => .resp 404 [])
      (fun _ => .resp 404 []) 2 404 [] (by omega) rfl (by omega) (by omega)
      (by omega) rfl).1
  · exact sendToBuildShip_terminal_and_transient.2 (fun _ => .resp 503 []) 2
      (by omega) (fun i _ _ => Or.inr (by omega))

/-- Claim C6: for the rate limiter,
(1) a client key whose record holds exactly `max = 30` timestamps inside the
trailing 60 s window is denied on the next check, with a reset time strictly
in the future (so the derived `retryAfter` is positive); and
(2) once every stored timestamp of the key is at least one full window old, a
fresh check is admitted. -/
theorem checkRateLimit_deny_and_readmit :
    (∀ now store ip,
        ((((storeGet store ip).getD ⟨[], now⟩).requests.filter
            fun t => now - t < RATE_LIMIT_WINDOW).length = RATE_LIMIT_MAX_REQUESTS) →
        ∃ resetTime, (checkRateLimit now ip store).1 = .denied resetTime ∧
          now < resetTime) ∧
    (∀ now store ip cd, storeGet store ip = some cd →
        (∀ t ∈ cd.requests, t + RATE_LIMIT_WINDOW ≤ now) →
        (checkRateLimit now ip store).1 = .allowed) := by
  constructor
  · intro now store ip h
    refine ⟨(((storeGet store ip).getD ⟨[], now⟩).requests.filter
        fun t => now - t < RATE_LIMIT_WINDOW).headD 0 + RATE_LIMIT_WINDOW, ?_, ?_⟩
    · rw [checkRateLimit]
      simp only
      rw [if_pos (by omega)]
    · have hne : (((storeGet store ip).getD ⟨[], now⟩).requests.filter
          fun t => now - t < RATE_LIMIT_WINDOW) ≠ [] := by
        intro hh
        rw [hh] at h
        simp [RATE_LIMIT_MAX_REQUESTS] at h
      have hmem : (((storeGet store ip).getD ⟨[], now⟩).requests.filter
          fun t => now - t < RATE_LIMIT_WINDOW).headD 0 ∈
          (((storeGet store ip).getD ⟨[], now⟩).requests.filter
            fun t => now - t < RATE_LIMIT_WINDOW) := by
        cases hl : (((storeGet store ip).getD ⟨[], now⟩).requests.filter
            fun t => now - t < RATE_LIMIT_WINDOW) with
        | nil => exact absurd hl hne
        | cons x xs => simp
      have hlt := (List.mem_filter.mp hmem).2
      rw [decide_eq_true_eq] at hlt
      have hW : RATE_LIMIT_WINDOW = 60000 := rfl
      omega
  · intro now store ip cd hget hall
    have hp : cd.requests.filter (fun t => now - t < RATE_LIMIT_WINDOW) = [] := by
      rw [List.filter_eq_nil_iff]
      intro t ht
      have := hall t ht
      simp only [decide_eq_true_eq]
      omega
    rw [checkRateLimit, hget]
    simp only [Option.getD_some, hp]
    rw [if_neg (by simp [RATE_LIMIT_MAX_REQUESTS])]

/-- Witness for claim C6: a key with 30 in-window timestamps is denied with a
future reset time, and a key whose single timestamp is a full window old is
admitted. -/
theorem checkRateLimit_deny_and_readmit_witness :
    (∃ resetTime,
        (checkRateLimit 100050 ("k")
          [(("k"), ⟨(List.range 30).map fun i => 100000 + i, 100000⟩)]).1 =
          .denied resetTime ∧ 100050 < resetTime) ∧
    (checkRateLimit 200000 ("k")
        [(("k"), ⟨[100000], 100000⟩)]).1 = .allowed := by
  constructor
  · exact checkRateLimit_deny_and_readmit.1 100050
      [(("k"), ⟨(List.range 30).map fun i => 100000 + i, 100000⟩)] (("k")) (by decide)
  · exact checkRateLimit_deny_and_readmit.2 200000
      [(("k"), ⟨[100000], 100000⟩)] (("k")) ⟨[100000], 100000⟩ (by decide)
      (by decide)

/-! Association-list lemmas for the rate-limit store. -/

theorem storeGet_storeSet_ne {s : RLStore} {ip k : String} {v : ClientData}
    (h : k ≠ ip) : storeGet (storeSet s ip v) k = storeGet s k := by
  induction s with
  | nil =>
    show (if ip = k then some v else storeGet [] k) = storeGet [] k
    rw [if_neg fun hh => h hh.symm]
  | cons e rest ih =>
    obtain ⟨k', v'⟩ := e
    by_cases hk : k' = ip
    · rw [storeSet, if_pos hk, storeGet, storeGet,
        if_neg fun hh => h (hh.symm.trans hk), if_neg fun hh => h (hh.symm.trans hk)]
    · rw [storeSet, if_neg hk, storeGet, storeGet]
      by_cases hkk : k' = k
      · rw [if_pos hkk, if_pos hkk]
      · rw [if_neg hkk, if_neg hkk, ih]

theorem storeGet_none_of_not_mem {s : RLStore} {k : String}
    (h : k ∉ s.map Prod.fst) : storeGet s k = none := by
  induction s with
  | nil => rfl
  | cons e rest ih =>
    obtain ⟨k', v'⟩ := e
    simp only [List.map_cons, List.mem_cons] at h
    push_neg at h
    rw [storeGet, if_neg fun hh => h.1 hh.symm]
    exact ih h.2

theorem storeGet_filter {s : RLStore} {k : String} {d : ClientData}
    {p : String × ClientData → Bool} (hn : keysNodup s) (h : storeGet s k = some d) :
    storeGet (s.filter p) k = if p (k, d) then some d else none := by
  induction s with
  | nil => simp [storeGet] at h
  | cons e rest ih =>
    obtain ⟨k', v'⟩ := e
    rw [keysNodup, List.map_cons, List.nodup_cons] at hn
    rw [storeGet] at h
    by_cases hk : k' = k
    · rw [if_pos hk] at h
      injection h with h
      subst h
      subst hk
      cases hp : p (k', v') with
      | true =>
        rw [List.filter_cons_of_pos hp, storeGet, if_pos rfl]
        simp
      | false =>
        rw [List.filter_cons_of_neg (by simp [hp])]
        have hnone : storeGet (List.filter p rest) k' = none := by
          refine storeGet_none_of_not_mem fun hmem => hn.1 ?_
          obtain ⟨⟨a, b⟩, hab, hfst⟩ := List.mem_map.mp hmem
          exact List.mem_map.mpr ⟨⟨a, b⟩, (List.mem_filter.mp hab).1, hfst⟩
        rw [hnone]
        simp
    · rw [if_neg hk] at h
      cases hp : p (k', v') with
      | true => rw [List.filter_cons_of_pos hp, storeGet, if_neg hk, ih hn.2 h]
      | false => rw [List.filter_cons_of_neg (by simp [hp]), ih hn.2 h]

theorem storeGet_touch_ne {s : RLStore} {ip k : String} {now : Nat} (h : k ≠ ip) :
    storeGet (touchLastCleanup s ip now) k = storeGet s k := by
  induction s with
  | nil => rfl
  | cons e rest ih =>
    obtain ⟨k', v'⟩ := e
    by_cases hk : k' = ip
    · rw [touchLastCleanup, if_pos hk, storeGet, storeGet,
        if_neg fun hh => h (hh.symm.trans hk), if_neg fun hh => h (hh.symm.trans hk)]
    · rw [touchLastCleanup, if_neg hk, storeGet, storeGet]
      by_cases hkk : k' = k
      · rw [if_pos hkk, if_pos hkk]
      · rw [if_neg hkk, if_neg hkk, ih]

theorem mem_keys_storeSet {s : RLStore} {ip k : String} {v : ClientData}
    (h : k ∈ (storeSet s ip v).map Prod.fst) :
    k ∈ s.map Prod.fst ∨ k = ip := by
  induction s with
  | nil => simp [storeSet] at h; exact Or.inr h
  | cons e rest ih =>
    obtain ⟨k', v'⟩ := e
    by_cases hk : k' = ip
    · subst hk
      rw [storeSet, if_pos rfl] at h
      simp only [List.map_cons, List.mem_cons] at h ⊢
      tauto
    · rw [storeSet, if_neg hk] at h
      simp only [List.map_cons, List.mem_cons] at h ⊢
      rcases h with h | h
      · exact Or.inl (Or.inl h)
      · rcases ih h with h' | h'
        · exact Or.inl (Or.inr h')
        · exact Or.inr h'

theorem keysNodup_storeSet {s : RLStore} {ip : String} {v : ClientData}
    (h : keysNodup s) : keysNodup (storeSet s ip v) := by
  induction s with
  | nil => simp [storeSet, keysNodup]
  | cons e rest ih =>
    obtain ⟨k', v'⟩ := e
    rw [keysNodup, List.map_cons, List.nodup_cons] at h
    by_cases hk : k' = ip
    · subst hk
      rw [storeSet, if_pos rfl, keysNodup, List.map_cons, List.nodup_cons]
      exact ⟨h.1, h.2⟩
    · rw [storeSet, if_neg hk, keysNodup, List.map_cons, List.nodup_cons]
      refine ⟨fun hmem => ?_, ih h.2⟩
      rcases mem_keys_storeSet hmem with h' | h'
      · exact h.1 h'
      · exact hk h'

/-- Claim C7, counterexample.  At `now = 150000` a check of key `x` (entry
`lastCleanup = 61000`, no requests) against a store also holding key `y`
(one admission at `54000`, `lastCleanup = 0`):
the sweep runs even though `x` was last cleaned `89000 ≤ 2×window` ago
(the source trigger is `> window`, not `> 2×window`), and it evicts `y` even
though the most recent admission of `y` (`54000`) does not predate
`now - 2×window = 30000` — eviction tests `lastCleanup`, not the newest
timestamp. -/
theorem checkRateLimit_sweep_counterexample :
    (RATE_LIMIT_WINDOW < 150000 - (61000 : Nat) ∧
      ¬ 2 * RATE_LIMIT_WINDOW < 150000 - (61000 : Nat)) ∧
    (checkRateLimit 150000 ("x")
        [(("x"), ⟨[], 61000⟩), (("y"), ⟨[54000], 0⟩)]).2 =
      [(("x"), ⟨[150000], 150000⟩)] ∧
    ¬ (54000 : Nat) < 150000 - 2 * RATE_LIMIT_WINDOW := by
  decide

/-- Claim C7 (amended): during an admitted check, the opportunistic sweep is
triggered exactly when the current key's entry has not been cleaned in over
one window (60 s, not two); when it runs, an entry of any other key is evicted
precisely when its `lastCleanup` instant — not its most recent admission
timestamp — predates `2×window` ago; when the trigger condition fails, every
other entry is left untouched. -/
theorem checkRateLimit_sweep_characterization :
    ∀ now ip store, keysNodup store →
    ((((storeGet store ip).getD ⟨[], now⟩).requests.filter
        fun t => now - t < RATE_LIMIT_WINDOW).length < RATE_LIMIT_MAX_REQUESTS) →
    ((RATE_LIMIT_WINDOW < now - ((storeGet store ip).getD ⟨[], now⟩).lastCleanup →
        ∀ k d, k ≠ ip → storeGet store k = some d →
          storeGet (checkRateLimit now ip store).2 k =
            (if 2 * RATE_LIMIT_WINDOW < now - d.lastCleanup then none else some d)) ∧
      (¬ RATE_LIMIT_WINDOW < now - ((storeGet store ip).getD ⟨[], now⟩).lastCleanup →
        ∀ k, k ≠ ip → storeGet (checkRateLimit now ip store).2 k = storeGet store k)) := by
  intro now ip store hnodup hlen
  constructor
  · intro htrig k d hk hget
    rw [checkRateLimit]
    simp only
    rw [if_neg (by omega), if_pos htrig, storeGet_touch_ne hk,
      storeGet_filter (keysNodup_storeSet hnodup) (by rw [storeGet_storeSet_ne hk, hget])]
    by_cases hc : 2 * RATE_LIMIT_WINDOW < now - d.lastCleanup
    · rw [if_neg (by simp [hc]), if_pos hc]
    · rw [if_pos (by simp [hc]), if_neg hc]
  · intro htrig k hk
    rw [checkRateLimit]
    simp only
    rw [if_neg (by omega), if_neg htrig, storeGet_storeSet_ne hk]

/-- Witness for the amended claim C7: in a concrete three-key store, a check
of `x` sweeps and the fate of `y` is decided by the lastCleanup-staleness
test. -/
theorem checkRateLimit_sweep_characterization_witness :
    storeGet (checkRateLimit 150000 ("x")
        [(("x"), ⟨[], 61000⟩), (("y"), ⟨[54000], 0⟩),
          (("z"), ⟨[149000], 100000⟩)]).2 ("y") =
      (if 2 * RATE_LIMIT_WINDOW < 150000 - (ClientData.mk [54000] 0).lastCleanup
       then none else some ⟨[54000], 0⟩) := by
  exact (checkRateLimit_sweep_characterization 150000 ("x")
      [(("x"), ⟨[], 61000⟩), (("y"), ⟨[54000], 0⟩), (("z"), ⟨[149000], 100000⟩)]
      (by unfold keysNodup; decide) (by decide)).1 (by decide) ("y") ⟨[54000], 0⟩
      (by decide) (by decide)

/-- Claim C3, counterexample: a direct upload of zero bytes is not rejected —
`processImageUpload` reaches the storage write with the empty byte array,
because `validateImageSize` only tests the upper bound and no `Empty` check
exists in this function (the emptiness check lives only in the separate
webhook download path of the relay function). -/
theorem processImageUpload_empty_reaches_store :
    processImageUpload
        ⟨some (("main").toList), some (("2024-01-15").toList),
          some (("a.jpg").toList), none⟩
        (some ⟨[], some (("image/jpeg").toList)⟩) (.failure .botProtection none)
        (("abcd1234").toList) =
      .storeWrite (("main/2024-01-15/a_abcd1234.jpg").toList) []
        (("image/jpeg").toList) (("direct-upload").toList) := by
  decide

/-- Claim C3 (amended): after acquiring the image bytes, in direct-upload mode
and in URL-upload mode alike, the coordinator rejects the request with the
size failure when the byte length exceeds the configured 10 MiB maximum,
before any storage write; a byte length of 0 is not rejected and proceeds to
the storage write. -/
theorem processImageUpload_size_rejection :
    (∀ uploadData (f : ImageFile) fetchResult suffix,
        defaultMaxImageSize < f.data.length →
        processImageUpload uploadData (some f) fetchResult suffix =
          .reject .imageTooLarge) ∧
    (∀ uploadData u data ct suffix,
        uploadData.imageUrl = some u →
        defaultMaxImageSize < (data : List Nat).length →
        processImageUpload uploadData none (.success data ct) suffix =
          .reject .imageTooLarge) := by
  constructor
  · intro uploadData f fetchResult suffix h
    rw [processImageUpload, processContinue, validateImageSize, if_pos h]
  · intro uploadData u data ct suffix hu h
    rw [processImageUpload, hu, processContinue, validateImageSize, if_pos h]

/-- Witness for the amended claim C3: a 10 MiB + 1 byte direct upload is
rejected with the size failure. -/
theorem processImageUpload_size_rejection_witness :
    defaultMaxImageSize < (List.replicate (defaultMaxImageSize + 1) (0 : Nat)).length ∧
    processImageUpload
        ⟨some (("main").toList), some (("2024-01-15").toList),
          some (("a.jpg").toList), none⟩
        (some ⟨List.replicate (defaultMaxImageSize + 1) 0, some (("image/jpeg").toList)⟩)
        (.failure .botProtection none) (("abcd1234").toList) =
      .reject .imageTooLarge := by
  refine ⟨by simp, ?_⟩
  exact processImageUpload_size_rejection.1 _ _ _ _ (by simp)

/-! Claim C10 — a branch with no usable characters yields an empty first
path segment. -/

theorem normalize_eq_nil_of_no_allowed {branch : List Char}
    (hsp : branch.all (fun c => !isSpaceB c) = true)
    (hal : (branch.map toLowerChar).all (fun c => !isAllowedB c) = true) :
    normalize branch = [] := by
  have hsp2 : (branch.map toLowerChar).all (fun c => !isSpaceB c) = true := by
    rw [List.all_eq_true]
    intro c hc
    obtain ⟨a, ha, rfl⟩ := List.mem_map.mp hc
    have hm := List.all_eq_true.mp hsp a ha
    rw [Bool.not_eq_true'] at hm ⊢
    exact isSpaceB_toLowerChar_eq_false hm
  rw [normalize, jsTrim_eq_self hsp, collapseWs_eq_self hsp2,
    List.filter_eq_nil_iff.mpr fun c hc => by
      have hm := List.all_eq_true.mp hal c hc
      simpa using hm]

/-- Claim C10: for an upload whose branch is non-empty, contains no
whitespace, and contains no character from `[a-z0-9-]` after lowercasing
(for example `"!!!"`), validation passes (only the presence of the branch is
checked), and the storage path computed by the coordinator has an empty first
segment: it begins with `/` followed by the date. -/
theorem weird_branch_validation_and_empty_segment :
    ∀ branch date filename suffix imgdata imgty fetchResult,
      branch ≠ [] →
      branch.all (fun c => !isSpaceB c) = true →
      (branch.map toLowerChar).all (fun c => !isAllowedB c) = true →
      matchesDatePattern date = true →
      matchesFilenamePattern filename = true →
      (imgdata : List Nat).length ≤ defaultMaxImageSize →
      validateUploadData ⟨some branch, some date, some filename, none⟩ = [] ∧
      processImageUpload ⟨some branch, some date, some filename, none⟩
          (some ⟨imgdata, imgty⟩) fetchResult suffix =
        .storeWrite ('/' :: (date ++ '/' :: generateFinalFilename suffix filename))
          imgdata (jsOr imgty (("application/octet-stream").toList))
          (("direct-upload").toList) := by
  intro branch date filename suffix imgdata imgty fetchResult hb hsp hal hdate hfile hlen
  have hd : date ≠ [] := by rintro rfl; exact absurd hdate (by decide)
  have hf : filename ≠ [] := by rintro rfl; exact absurd hfile (by decide)
  constructor
  · simp [validateUploadData, jsTruthy, List.isEmpty_iff, hb, hd, hf, hdate, hfile]
  · rw [processImageUpload, processContinue, validateImageSize,
      if_neg (Nat.not_lt.mpr hlen)]
    simp only [Option.getD_some]
    rw [storagePathOf, normalize_eq_nil_of_no_allowed hsp hal]
    rfl

/-- Witness for claim C10 at branch `"!!!"`. -/
theorem weird_branch_validation_and_empty_segment_witness :
    validateUploadData ⟨some (("!!!").toList), some (("2024-01-15").toList),
        some (("a.png").toList), none⟩ = [] ∧
    processImageUpload ⟨some (("!!!").toList), some (("2024-01-15").toList),
        some (("a.png").toList), none⟩ (some ⟨[7], some (("image/png").toList)⟩)
        (.failure .botProtection none) (("abcd1234").toList) =
      .storeWrite ('/' :: ((("2024-01-15").toList) ++ '/' ::
          generateFinalFilename (("abcd1234").toList) (("a.png").toList)))
        [7] (jsOr (some (("image/png").toList)) (("application/octet-stream").toList))
        (("direct-upload").toList) := by
  exact weird_branch_validation_and_empty_segment (("!!!").toList)
    (("2024-01-15").toList) (("a.png").toList) (("abcd1234").toList) [7]
    (some (("image/png").toList)) (.failure .botProtection none)
    (by decide) (by decide) (by decide) (by decide) (by decide) (by decide)

/-! Claim C8 — the webhook payload validator. -/

theorem eq_of_mem_if_nil_else {x m : List Char} {c : Bool}
    (h : x ∈ (if c = true then ([] : List (List Char)) else [m])) : x = m := by
  cases c with
  | true => simp at h
  | false => simpa using h

theorem eq_of_mem_if_single {x m : List Char} {c : Bool}
    (h : x ∈ (if c = true then [m] else ([] : List (List Char)))) : x = m := by
  cases c with
  | true => simpa using h
  | false => simp at h

theorem eq_of_mem_urlBlock {x a b : List Char} {c1 c2 c3 : Bool}
    (h : x ∈ (if c1 = true then
        (if c2 = true then (if c3 = true then [a] else []) else [b])
      else ([] : List (List Char)))) : x = a ∨ x = b := by
  cases c1 with
  | false => simp at h
  | true =>
    cases c2 with
    | false => simp at h; exact Or.inr h
    | true =>
      cases c3 with
      | false => simp at h
      | true => simp at h; exact Or.inl h

/-- Claim C8, counterexample: the payload below carries every required field
and the nil UUID `00000000-0000-0000-0000-000000000000` as `metadataId`; the
nil UUID is not in UUID v4 format (its version nibble is `0`), yet
`validatePayload` — whose regex checks only the generic 8-4-4-4-12 hex shape —
reports no violation at all (URL parsing supplied by an oracle that accepts
the given Supabase-style URL, as the platform `new URL` would). -/
theorem validatePayload_accepts_non_v4_uuid :
    uuidV4Shaped (("00000000-0000-0000-0000-000000000000").toList) = false ∧
    validatePayload (fun _ => true)
      ⟨some (("https://proj.supabase.co/storage/v1/object/public/edge-slips/a.jpg").toList),
        some (("a.jpg").toList), some (("main").toList), some (("2024-01-15").toList),
        some (("00000000-0000-0000-0000-000000000000").toList)⟩ = [] := by
  decide

/-- Claim C8 (amended): `validatePayload` reports the corresponding missing
violation whenever `public_url`, `filename`, `branch`, `date` or `metadataId`
is absent or empty; and for a present `metadataId` it reports the UUID
violation exactly when the value fails the generic 8-4-4-4-12 hex UUID shape —
any version is accepted, not only UUID v4. -/
theorem validatePayload_missing_and_uuid :
    (∀ urlP (p : WebhookPayload),
      (jsTruthy p.public_url = false →
        missingFieldMsg (("public_url").toList) ∈ validatePayload urlP p) ∧
      (jsTruthy p.filename = false →
        missingFieldMsg (("filename").toList) ∈ validatePayload urlP p) ∧
      (jsTruthy p.branch = false →
        missingFieldMsg (("branch").toList) ∈ validatePayload urlP p) ∧
      (jsTruthy p.date = false →
        missingFieldMsg (("date").toList) ∈ validatePayload urlP p) ∧
      (jsTruthy p.metadataId = false →
        missingFieldMsg (("metadataId").toList) ∈ validatePayload urlP p)) ∧
    (∀ urlP (p : WebhookPayload) m, p.metadataId = some m → m ≠ [] →
      (uuidMsg ∈ validatePayload urlP p ↔ matchesUuidPattern m = false)) := by
  constructor
  · intro urlP p
    refine ⟨fun h => ?_, fun h => ?_, fun h => ?_, fun h => ?_, fun h => ?_⟩ <;>
      simp [validatePayload, h]
  · intro urlP p m hm hne
    constructor
    · intro hmem
      by_contra hmt
      rw [Bool.not_eq_false] at hmt
      rw [validatePayload] at hmem
      simp only [List.mem_append] at hmem
      rcases hmem with ((((((((h1 | h2) | h3) | h4) | h5) | h6) | h7) | h8) | h9)
      · exact absurd (eq_of_mem_if_nil_else h1) (by decide)
      · exact absurd (eq_of_mem_if_nil_else h2) (by decide)
      · exact absurd (eq_of_mem_if_nil_else h3) (by decide)
      · exact absurd (eq_of_mem_if_nil_else h4) (by decide)
      · exact absurd (eq_of_mem_if_nil_else h5) (by decide)
      · rcases eq_of_mem_urlBlock h6 with h | h
        · exact absurd h (by decide)
        · exact absurd h (by decide)
      · exact absurd (eq_of_mem_if_single h7) (by decide)
      · exact absurd (eq_of_mem_if_single h8) (by decide)
      · rw [hm] at h9
        simp [jsTruthy, List.isEmpty_iff, hne, hmt] at h9
    · intro hmf
      rw [validatePayload, hm]
      simp only [List.mem_append]
      refine Or.inr ?_
      simp [jsTruthy, List.isEmpty_iff, hne, hmf]

/-- Witness for the amended claim C8: a payload missing `branch` receives the
missing-branch violation, and a present non-UUID `metadataId` receives the
UUID violation. -/
theorem validatePayload_missing_and_uuid_witness :
    missingFieldMsg (("branch").toList) ∈ validatePayload (fun _ => true)
      ⟨some (("u").toList), some (("a.jpg").toList), none,
        some (("2024-01-15").toList), some (("x").toList)⟩ ∧
    (uuidMsg ∈ validatePayload (fun _ => true)
        ⟨some (("u").toList), some (("a.jpg").toList), some (("main").toList),
          some (("2024-01-15").toList), some (("xyz").toList)⟩ ↔
      matchesUuidPattern (("xyz").toList) = false) := by
  constructor
  · exact ((validatePayload_missing_and_uuid.1 (fun _ => true)
      ⟨some (("u").toList), some (("a.jpg").toList), none,
        some (("2024-01-15").toList), some (("x").toList)⟩).2.2.1 (by decide))
  · exact validatePayload_missing_and_uuid.2 (fun _ => true)
      ⟨some (("u").toList), some (("a.jpg").toList), some (("main").toList),
        some (("2024-01-15").toList), some (("xyz").toList)⟩
      (("xyz").toList) rfl (by decide)

/-! Claim C4 — filename generation. -/

theorem endsWithL_iff_suffix {suf s : List Char} :
    endsWithL suf s = true ↔ suf <:+ s := by
  rw [endsWithL, List.isPrefixOf_iff_prefix, List.reverse_prefix]

theorem endsWithL_append (s t : List Char) : endsWithL t (s ++ t) = true :=
  endsWithL_iff_suffix.mpr (List.suffix_append s t)

theorem take_len_sub_append (a t : List Char) :
    (a ++ t).take ((a ++ t).length - t.length) = a := by
  rw [List.take_left' (by simp [List.length_append])]

theorem drop_append_add (l₁ l₂ : List Char) (k : Nat) :
    (l₁ ++ l₂).drop (l₁.length + k) = l₂.drop k := by
  induction l₁ with
  | nil => simp
  | cons a as ih =>
    have hh : as.length + 1 + k = as.length + k + 1 := by omega
    simp only [List.cons_append, List.length_cons, hh, List.drop_succ_cons]
    exact ih

theorem takeWhile_append_cons {p : Char → Bool} {l : List Char} {c : Char}
    {t : List Char} (hl : l.all p = true) (hc : p c = false) :
    (l ++ c :: t).takeWhile p = l := by
  induction l with
  | nil => simp [List.takeWhile_cons, hc]
  | cons a as ih =>
    rw [List.all_cons, Bool.and_eq_true] at hl
    simp [List.takeWhile_cons, hl.1, ih hl.2]

theorem isWordChar_no_dot_slash {c : Char} (h : isWordChar c = true) :
    (!(c = '.') && !(c = '/')) = true := by
  simp only [Bool.and_eq_true, Bool.not_eq_true', decide_eq_false_iff_not]
  constructor <;> rintro rfl <;> exact absurd h (by decide)

theorem extOK_cases {ext : List Char} (h : extOK ext = true) :
    ext.map toLowerChar = ['j', 'p', 'g'] ∨ ext.map toLowerChar = ['j', 'p', 'e', 'g'] ∨
      ext.map toLowerChar = ['p', 'n', 'g'] ∨ ext.map toLowerChar = ['g', 'i', 'f'] ∨
      ext.map toLowerChar = ['w', 'e', 'b', 'p'] := by
  have h2 := h
  rw [extOK, List.contains_eq_any_beq] at h2
  simpa using h2

theorem extOK_no_dot_slash {ext : List Char} (h : extOK ext = true) :
    ext.all (fun c => !(c = '.') && !(c = '/')) = true := by
  rw [List.all_eq_true]
  intro c hc
  have hm : toLowerChar c ∈ ext.map toLowerChar := List.mem_map_of_mem _ hc
  simp only [Bool.and_eq_true, Bool.not_eq_true', decide_eq_false_iff_not]
  rcases extOK_cases h with h5 | h5 | h5 | h5 | h5 <;> rw [h5] at hm <;>
    exact ⟨fun hd => by rw [hd] at hm; revert hm; decide,
      fun hd => by rw [hd] at hm; revert hm; decide⟩

theorem extOK_ne_nil {ext : List Char} (h : extOK ext = true) : ext ≠ [] := by
  intro hn
  rw [hn] at h
  exact absurd h (by decide)

theorem stripExt_append {stem ext : List Char}
    (hext : ext.all (fun c => !(c = '.') && !(c = '/')) = true)
    (hne : ext ≠ []) :
    stripExt (stem ++ '.' :: ext) = stem := by
  have hr : (stem ++ '.' :: ext).reverse = ext.reverse ++ '.' :: stem.reverse := by
    rw [List.reverse_append, List.reverse_cons, List.append_assoc, List.singleton_append]
  have hb : (ext.reverse ++ '.' :: stem.reverse).takeWhile
      (fun c => !(c = '.') && !(c = '/')) = ext.reverse :=
    takeWhile_append_cons (by rwa [List.all_reverse]) (by decide)
  have hd : (ext.reverse ++ '.' :: stem.reverse).drop ext.reverse.length =
      '.' :: stem.reverse := List.drop_left _ _
  rw [stripExt]
  simp only [hr, hb, hd]
  rw [if_neg (by simpa using fun hx => hne (by simpa using congrArg List.reverse hx)),
    List.reverse_reverse]

theorem not_dotJpg_suffix_three {stem lext : List Char} (hlen : lext.length = 3)
    (hne : ('.' :: lext) ≠ dotJpg) : dotJpg <:+ (stem ++ '.' :: lext) → False := by
  intro hs
  rw [List.suffix_iff_eq_drop] at hs
  have hl : (stem ++ '.' :: lext).length - dotJpg.length = stem.length := by
    simp only [List.length_append, List.length_cons, List.length_nil, hlen, dotJpg]
    omega
  rw [hl, List.drop_left] at hs
  exact hne hs.symm

theorem not_dotJpg_suffix_four {stem lext : List Char} (hlen : lext.length = 4)
    (hne : lext ≠ dotJpg) : dotJpg <:+ (stem ++ '.' :: lext) → False := by
  intro hs
  rw [List.suffix_iff_eq_drop] at hs
  have hl : (stem ++ '.' :: lext).length - dotJpg.length = stem.length + 1 := by
    simp only [List.length_append, List.length_cons, List.length_nil, hlen, dotJpg]
    omega
  have hd : (stem ++ '.' :: lext).drop (stem.length + 1) = lext :=
    drop_append_add stem ('.' :: lext) 1
  rw [hl, hd] at hs
  exact hne hs.symm

theorem take_sub_four_dotJpg (a : List Char) :
    (a ++ dotJpg).take ((a ++ dotJpg).length - 4) = a := by
  have h4 : (a ++ dotJpg).length - 4 = a.length := by
    simp only [List.length_append, List.length_cons, List.length_nil, dotJpg]
    omega
  rw [h4, List.take_left]

theorem gen_final_phase (suffix a : List Char) :
    (if endsWithL dotJpg (a ++ dotJpg) then
      (a ++ dotJpg).take ((a ++ dotJpg).length - 4) ++ '_' :: (suffix ++ dotJpg)
     else a ++ dotJpg) = a ++ '_' :: (suffix ++ dotJpg) := by
  rw [if_pos (endsWithL_append _ _), take_sub_four_dotJpg]

theorem endsWithL_dotJpg_result (stem suffix : List Char) :
    endsWithL dotJpg (stem ++ '_' :: (suffix ++ dotJpg)) = true := by
  have h : stem ++ '_' :: (suffix ++ dotJpg) = (stem ++ '_' :: suffix) ++ dotJpg := by
    rw [List.append_assoc]
    rfl
  rw [h]
  exact endsWithL_append _ _

theorem matchTail_decomp : ∀ {s : List Char}, matchTail s = true →
    ∃ stem ext, s = stem ++ '.' :: ext ∧ stem.all isWordChar = true ∧
      extOK ext = true := by
  intro s
  induction s with
  | nil => intro h; exact absurd h (by decide)
  | cons c rest ih =>
    intro h
    rw [matchTail] at h
    by_cases hc : c = '.'
    · rw [if_pos hc] at h
      subst hc
      exact ⟨[], rest, rfl, rfl, h⟩
    · rw [if_neg hc, Bool.and_eq_true] at h
      obtain ⟨stem, ext, heq, hall, hx⟩ := ih h.2
      exact ⟨c :: stem, ext, by rw [heq, List.cons_append],
        by simp [List.all_cons, h.1, hall], hx⟩

theorem matchesFilenamePattern_decomp {s : List Char}
    (h : matchesFilenamePattern s = true) :
    ∃ stem ext, s = stem ++ '.' :: ext ∧ stem ≠ [] ∧ stem.all isWordChar = true ∧
      extOK ext = true := by
  cases s with
  | nil => exact absurd h (by decide)
  | cons c rest =>
    rw [matchesFilenamePattern, Bool.and_eq_true] at h
    obtain ⟨stem, ext, heq, hall, hx⟩ := matchTail_decomp h.2
    exact ⟨c :: stem, ext, by rw [heq, List.cons_append], by simp,
      by simp [List.all_cons, h.1, hall], hx⟩

/-- Claim C4 (amended): for every filename matching the accepted pattern
`^[A-Za-z0-9_-]+\.(jpg|jpeg|png|gif|webp)$` (case-insensitive), writing the
name as `stem.ext`:
if the extension lowercases to `jpg` but is not written exactly `jpg`
(e.g. `A.JPG`), the filename is returned unchanged — no suffix is inserted
and the result does not end in `.jpg`;
in every other case the result is `stem_<suffix>.jpg`, which ends in `.jpg`;
in particular when the extension is exactly `jpg` the result differs from the
original by exactly the inserted `_<suffix>` before the extension, while for
the other extensions the extension is also replaced by `.jpg`. -/
theorem generateFinalFilename_characterization (suffix fn : List Char)
    (hm : matchesFilenamePattern fn = true) (_hs : suffix.length = 8) :
    ∃ stem ext, fn = stem ++ '.' :: ext ∧ stem ≠ [] ∧
      ((ext.map toLowerChar = ['j', 'p', 'g'] ∧ ext ≠ ['j', 'p', 'g'] ∧
          generateFinalFilename suffix fn = fn) ∨
        (¬(ext.map toLowerChar = ['j', 'p', 'g'] ∧ ext ≠ ['j', 'p', 'g']) ∧
          generateFinalFilename suffix fn = stem ++ '_' :: (suffix ++ dotJpg) ∧
          endsWithL dotJpg (generateFinalFilename suffix fn) = true)) := by
  obtain ⟨stem, ext, heq, hne, hword, hext⟩ := matchesFilenamePattern_decomp hm
  subst heq
  refine ⟨stem, ext, rfl, hne, ?_⟩
  have hmap : (stem ++ '.' :: ext).map toLowerChar =
      stem.map toLowerChar ++ '.' :: ext.map toLowerChar := by
    simp only [List.map_append, List.map_cons,
      show toLowerChar ('.') = ('.') from by decide]
  by_cases hjl : ext.map toLowerChar = ['j', 'p', 'g']
  · have hcond1 : endsWithL dotJpg ((stem ++ '.' :: ext).map toLowerChar) = true := by
      rw [hmap, hjl]
      exact endsWithL_append (stem.map toLowerChar) dotJpg
    by_cases hje : ext = ['j', 'p', 'g']
    · right
      have hgen : generateFinalFilename suffix (stem ++ '.' :: ext) =
          stem ++ '_' :: (suffix ++ dotJpg) := by
        rw [generateFinalFilename, if_pos hcond1]
        subst hje
        exact gen_final_phase suffix stem
      refine ⟨fun hx => hx.2 hje, hgen, ?_⟩
      rw [hgen]
      exact endsWithL_dotJpg_result stem suffix
    · left
      have hlen3 : ext.length = 3 := by
        have := congrArg List.length hjl
        simpa using this
      have hcond2 : endsWithL dotJpg (stem ++ '.' :: ext) = false := by
        rw [Bool.eq_false_iff]
        intro hsuf
        rw [endsWithL_iff_suffix] at hsuf
        exact not_dotJpg_suffix_three hlen3
          (fun hx => hje (by simpa [dotJpg] using hx)) hsuf
      refine ⟨hjl, hje, ?_⟩
      have hz : generateFinalFilename suffix (stem ++ '.' :: ext) =
          (if endsWithL dotJpg (stem ++ '.' :: ext) = true then
            (stem ++ '.' :: ext).take ((stem ++ '.' :: ext).length - 4) ++
              '_' :: (suffix ++ dotJpg)
          else stem ++ '.' :: ext) := by
        rw [generateFinalFilename, if_pos hcond1]
      rw [hz, if_neg (by rw [hcond2]; exact Bool.false_ne_true)]
  · right
    have hstrip : stripExt (stem ++ '.' :: ext) = stem :=
      stripExt_append (extOK_no_dot_slash hext) (extOK_ne_nil hext)
    have hcond1 : endsWithL dotJpg ((stem ++ '.' :: ext).map toLowerChar) = false := by
      rw [Bool.eq_false_iff]
      intro hsuf
      rw [hmap, endsWithL_iff_suffix] at hsuf
      rcases extOK_cases hext with h5 | h5 | h5 | h5 | h5
      · exact hjl h5
      · rw [h5] at hsuf
        exact @not_dotJpg_suffix_four (stem.map toLowerChar) ['j', 'p', 'e', 'g']
          rfl (by decide) hsuf
      · rw [h5] at hsuf
        exact @not_dotJpg_suffix_three (stem.map toLowerChar) ['p', 'n', 'g']
          rfl (by decide) hsuf
      · rw [h5] at hsuf
        exact @not_dotJpg_suffix_three (stem.map toLowerChar) ['g', 'i', 'f']
          rfl (by decide) hsuf
      · rw [h5] at hsuf
        exact @not_dotJpg_suffix_four (stem.map toLowerChar) ['w', 'e', 'b', 'p']
          rfl (by decide) hsuf
    have hgen : generateFinalFilename suffix (stem ++ '.' :: ext) =
        stem ++ '_' :: (suffix ++ dotJpg) := by
      have hf1 : (if endsWithL dotJpg ((stem ++ '.' :: ext).map toLowerChar) = true
            then stem ++ '.' :: ext
            else stripExt (stem ++ '.' :: ext) ++ dotJpg) = stem ++ dotJpg := by
        rw [hcond1, if_neg Bool.false_ne_true, hstrip]
      have hz : generateFinalFilename suffix (stem ++ '.' :: ext) =
          (if endsWithL dotJpg (stem ++ dotJpg) = true then
            (stem ++ dotJpg).take ((stem ++ dotJpg).length - 4) ++
              '_' :: (suffix ++ dotJpg)
          else stem ++ dotJpg) := by
        rw [generateFinalFilename, hf1]
      rw [hz, gen_final_phase suffix stem]
    refine ⟨fun hx => hjl hx.1, hgen, ?_⟩
    rw [hgen]
    exact endsWithL_dotJpg_result stem suffix

/-- Claim C4, counterexample: the filename `A.JPG` matches the accepted
pattern (case-insensitive), yet `generateFinalFilename` returns it unchanged:
the lowercased `endsWith('.jpg')` test skips the extension coercion, and the
case-sensitive replacement regex `/\.jpg$/` then fails to match `.JPG`, so no
suffix is inserted and the result does not end in `.jpg`. -/
theorem generateFinalFilename_uppercase_jpg_unchanged :
    matchesFilenamePattern (("A.JPG").toList) = true ∧
    generateFinalFilename (("abcd1234").toList) (("A.JPG").toList) =
      (("A.JPG").toList) ∧
    endsWithL dotJpg
      (generateFinalFilename (("abcd1234").toList) (("A.JPG").toList)) = false := by
  decide

/-- Witness for the amended claim C4 at `photo.png` with suffix `abcd1234`. -/
theorem generateFinalFilename_characterization_witness :
    matchesFilenamePattern (("photo.png").toList) = true ∧
    (("abcd1234").toList).length = 8 ∧
    (∃ stem ext, (("photo.png").toList) = stem ++ '.' :: ext ∧ stem ≠ [] ∧
      ((ext.map toLowerChar = ['j', 'p', 'g'] ∧ ext ≠ ['j', 'p', 'g'] ∧
          generateFinalFilename (("abcd1234").toList) (("photo.png").toList) =
            (("photo.png").toList)) ∨
        (¬(ext.map toLowerChar = ['j', 'p', 'g'] ∧ ext ≠ ['j', 'p', 'g']) ∧
          generateFinalFilename (("abcd1234").toList) (("photo.png").toList) =
            stem ++ '_' :: ((("abcd1234").toList) ++ dotJpg) ∧
          endsWithL dotJpg (generateFinalFilename (("abcd1234").toList)
            (("photo.png").toList)) = true))) :=
  ⟨by decide, by decide,
    generateFinalFilename_characterization (("abcd1234").toList)
      (("photo.png").toList) (by decide) (by decide)⟩

end SlypStream
